import Mathlib

/-!
Shallow embedding of the MCP call-proxy bridge server
(source: `call_mcp_remote.py`) and proofs about its orchestration logic.

The embedding models:
* the flat tool-identifier mangling (`f"server_{server_idx}_{tool.name}"`)
  and its regex-based resolution (`re.match(r"server_(\d+)_(.+)", name)`);
* the best-effort connect phase (`MCPClient.connect_to_sse_servers`);
* teardown (`MCPClient.cleanup` and the handler's `finally`);
* the conversation-driver loop (`MCPClient.process_query`), driven by a
  finite script of model responses and a pure tool oracle;
* the request handler (`handle_query`) with its `asyncio.wait_for`
  deadline and its exception-to-HTTP mapping.

External effects (the model backend, the provider sessions, wall time) are
supplied as explicit oracles.  Each awaited operation carries an abstract
duration in "time units"; the `asyncio.wait_for(..., timeout=300.0)` wrapper
is modelled by threading the accumulated elapsed time of the wrapped
coroutine and cancelling (raising a timeout) at the awaited operation whose
completion would exceed the budget.  Ghost observation fields (`snaps`,
`events`) record the sequence of transcript appends and of awaited calls;
they add no behaviour and exist only so that ordering properties can be
stated.
-/

namespace MCPProxy

/-- A tool descriptor fetched from a provider, as used by the source
(`tool.name`, `tool.description`, `tool.inputSchema`); the input schema is
kept opaque as a string. -/
structure Tool where
  name : String
  description : String
  inputSchema : String
deriving DecidableEq

/-- One tool-call request inside a model response (`tool_call.id`,
`tool_call.function.name` — the flat identifier echoed by the model —
and `tool_call.function.arguments`, kept as its raw string; the source's
`json.loads`/`json.dumps` round-trip of the arguments is abstracted as the
identity on this string). -/
structure ToolCall where
  id : String
  name : String
  arguments : String
deriving DecidableEq

/-- A model response message (`response.choices[0].message`): optional text
content and a (possibly empty) list of tool calls.  The OpenAI client's
`tool_calls = None` is modelled as the empty list. -/
structure ModelMessage where
  content : Option String
  toolCalls : List ToolCall
deriving DecidableEq

/-- Result of one awaited external operation: normal return or a raised
exception carrying its `str()` form. -/
inductive Res (α : Type) where
  | ok (val : α)
  | err (msg : String)
deriving DecidableEq

/-- One scripted reply of the model backend: `dur` is the wall time the
`client.chat.completions.create` call takes, `result` its outcome. -/
structure ScriptEntry where
  dur : Nat
  result : Res ModelMessage
deriving DecidableEq

/-- Behaviour of one `session.call_tool(tool_name, tool_args)` invocation:
wall time taken and either the stringified result content
(`str(result.content)`) or the message of the raised exception. -/
structure ToolBehavior where
  dur : Nat
  result : Res String
deriving DecidableEq

/-- Oracle giving the behaviour of every possible tool invocation, keyed by
server name, local tool name and raw arguments. -/
abbrev ToolOracle := String → String → String → ToolBehavior

/-- Exceptions that can propagate through the request, mirroring the Python
exception values the source can raise. -/
inductive Exc where
  | httpExc (status : Nat) (detail : String)
  | keyError (key : String)
  | indexError
  | timeoutError
  | generic (msg : String)
  | scriptEnd
deriving DecidableEq

/-- Outcome of a Python call: normal return or a propagating exception. -/
inductive Outcome (α : Type) where
  | ok (val : α)
  | raised (e : Exc)
deriving DecidableEq

/-! ### Decimal rendering and parsing

Python renders the provider ordinal with `str(server_idx)` inside the
f-string and parses it back with `int(match.group(1))`.  `toDecimalAux` is a
fuel-based little-endian decimal digit list (the fuel makes it structurally
recursive, hence kernel-reducible); `pyStrNat` is ordinary decimal notation
and `parseDigits` is `int()` restricted to a digit-only string, which is all
the regex group `(\d+)` can produce. -/

/-- Little-endian decimal digits of `n`; `fuel ≥ n` suffices. -/
def toDecimalAux : Nat → Nat → List Char
  | 0, _ => []
  | _ + 1, 0 => []
  | fuel + 1, n + 1 => Nat.digitChar ((n + 1) % 10) :: toDecimalAux fuel ((n + 1) / 10)

/-- Decimal rendering of a natural number, like Python `str()` on an `int`. -/
def pyStrNat (n : Nat) : String :=
  if n = 0 then "0" else ⟨(toDecimalAux n n).reverse⟩

/-- Value of a decimal digit character. -/
def digitVal (c : Char) : Nat := c.toNat - 48

/-- Python `int()` on a nonempty string of decimal digits. -/
def parseDigits (l : List Char) : Nat :=
  l.foldl (fun a c => 10 * a + digitVal c) 0

/-! ### Namespace mangling

`mangle` embeds the source's catalog construction
(`"name": f"server_{server_idx}_{tool.name}"`, line 86); `resolveFlat`
embeds `re.match(r"server_(\d+)_(.+)", tool_call.function.name)` followed by
`int(match.group(1))` (lines 132–139).  Notes on the regex semantics:
`re.match` anchors at the start only and does not require consuming the
whole string; `\d+` is greedy, and backtracking it can never help because a
shortened digit run is followed by a digit, never by the required `_`; `.`
does not match a newline, so group 2 is the maximal newline-free run after
the underscore and must be nonempty.  (`\d` and `int()` also accept
non-ASCII Unicode digits in Python; identifiers produced by `mangle` only
ever contain ASCII digits, so the embedding models the ASCII case.) -/

/-- Strip an expected literal prefix from a character list. -/
def stripLit : List Char → List Char → Option (List Char)
  | [], s => some s
  | _ :: _, [] => none
  | p :: ps, c :: cs => if c = p then stripLit ps cs else none

/-- Flat tool identifier built from the provider ordinal and the local tool
name (source line 86). -/
def mangle (serverIdx : Nat) (toolName : String) : String :=
  "server_" ++ pyStrNat serverIdx ++ "_" ++ toolName

/-- Decode a flat identifier back to (provider ordinal, local tool name);
`none` models a failed `re.match` (source lines 132–139). -/
def resolveFlat (s : String) : Option (Nat × String) :=
  match stripLit "server_".data s.data with
  | none => none
  | some rest =>
    let ds := rest.takeWhile Char.isDigit
    match rest.dropWhile Char.isDigit with
    | '_' :: tail =>
      if ds = [] then none
      else
        let g2 := tail.takeWhile (fun c => c ≠ '\n')
        if g2 = [] then none else some (parseDigits ds, ⟨g2⟩)
    | _ => none

/-! ### Session registry and connect phase

`connect_to_sse_servers` (source lines 41–63) iterates the caller-supplied
`mcpServers` mapping in insertion order.  For each entry it first reads
`server_config['type']` — a lookup that raises `KeyError` *outside* the
per-provider `try`, aborting the whole phase — then, for `"sse"` entries,
attempts `sse_client` + `ClientSession` + `initialize` (any failure is
caught and the provider skipped), registers the session and its exit stack,
and finally fetches `list_tools`; a `list_tools` failure is also caught,
leaving the session registered but absent from `settion_tools`. -/

/-- A provider's raw config dict (`{"type": ..., "url": ...}`). -/
abbrev ServerCfg := List (String × String)

/-- The caller-supplied `mcpServers` mapping in insertion order; a Python
dict, so the names are unique. -/
abbrev MCPServers := List (String × ServerCfg)

/-- Possible outcome of one provider's connect attempt, as decided by the
external world. -/
inductive ConnectOutcome where
  | fail
  | toolsFail (why : String)
  | ok (tools : List Tool)
deriving DecidableEq

/-- External behaviour of one provider's connect attempt: wall time it
takes and its outcome.  The duration elapses before the handler enters
`asyncio.wait_for`, which starts only afterwards (source lines 188–193). -/
structure ConnectBehavior where
  dur : Nat
  outcome : ConnectOutcome
deriving DecidableEq

/-- The registry state of an `MCPClient`: `sessions`, `settion_tools` (the
source's spelling) and `_exit_stacks`, each in insertion order. -/
structure RegState where
  sessions : List String
  settionTools : List (String × List Tool)
  exitStacks : List String
deriving DecidableEq

/-- The registry of a freshly constructed `MCPClient`. -/
def RegState.empty : RegState := ⟨[], [], []⟩

/-- Embedding of `connect_to_sse_servers`: returns the (possibly partial)
registry state together with the exception that escaped the loop, if any. -/
def connectServers (connO : String → ConnectBehavior) :
    MCPServers → RegState → RegState × Option Exc
  | [], st => (st, none)
  | (name, scfg) :: rest, st =>
    match scfg.lookup "type" with
    | none => (st, some (.keyError "type"))
    | some ty =>
      if ty = "sse" then
        match (connO name).outcome with
        | .fail => connectServers connO rest st
        | .toolsFail _ =>
          connectServers connO rest
            { st with sessions := st.sessions ++ [name],
                      exitStacks := st.exitStacks ++ [name] }
        | .ok tools =>
          connectServers connO rest
            { st with sessions := st.sessions ++ [name],
                      exitStacks := st.exitStacks ++ [name],
                      settionTools := st.settionTools ++ [(name, tools)] }
      else connectServers connO rest st

/-- Embedding of `MCPClient.cleanup` (source lines 65–72): every registered
exit stack is closed in registration order; a failing `aclose` is caught
and logged, so the attempt list always covers all of `_exit_stacks` and the
function never raises.  `closeOk` tells whether a given session's close
succeeds; the returned list records one attempt per registered session. -/
def cleanup (closeOk : String → Bool) (st : RegState) : List (String × Bool) :=
  st.exitStacks.map fun n => (n, closeOk n)

/-! ### Conversation driver -/

/-- One call inside an assistant transcript entry (`id`, `function.name` —
the *local* tool name the source writes there — and the arguments string). -/
structure AsstCall where
  id : String
  name : String
  arguments : String
deriving DecidableEq

/-- A transcript entry of the `messages` list. -/
inductive Msg where
  | user (content : String)
  | assistant (toolCalls : List AsstCall)
  | toolRes (toolCallId : String) (content : String)
deriving DecidableEq

/-- The flat catalog entry handed to the model (`"function": {...}` of
`available_tools`). -/
structure FlatSpec where
  name : String
  description : String
  parameters : String
deriving DecidableEq

/-- Ghost observation of one awaited external call: a model backend call
(with the transcript and catalog passed to it) or a tool invocation (with
the routing the dispatcher computed). -/
inductive Event where
  | modelCall (messages : List Msg) (tools : List FlatSpec)
  | toolInvoke (serverName toolName arguments : String)
deriving DecidableEq

/-- Driver state threaded through `process_query`: `messages`, `finalText`
and `toolResults` are the source's local variables; `snaps` (the transcript
after each append, starting from its creation) and `events` (the awaited
external calls, in order) are ghost observations; `elapsed` is the wall
time the coroutine has consumed inside `asyncio.wait_for`. -/
structure PState where
  messages : List Msg
  snaps : List (List Msg)
  finalText : List String
  toolResults : List (String × String)
  events : List Event
  elapsed : Nat
deriving DecidableEq

/-- The empty driver state (before `messages` is even created). -/
def PState.empty : PState := ⟨[], [], [], [], [], 0⟩

/-- Catalog construction (source lines 82–90): enumerate `settion_tools`
in insertion order and mangle every tool name with its provider ordinal. -/
def buildAvailableTools (settionTools : List (String × List Tool)) : List FlatSpec :=
  (settionTools.enum.map fun p =>
    p.2.2.map fun t => FlatSpec.mk (mangle p.1 t.name) t.description t.inputSchema).flatten

/-- The assistant entry appended for one executed tool call (source lines
151–163): note it records the decoded *local* tool name. -/
def assistantEntry (tc : ToolCall) (toolName : String) : Msg :=
  .assistant [⟨tc.id, toolName, tc.arguments⟩]

/-- The tool entry appended for one executed tool call (source lines
164–168). -/
def toolEntry (tc : ToolCall) (content : String) : Msg :=
  .toolRes tc.id content

/-- Embedding of the inner `for tool_call in message.tool_calls` loop
(source lines 127–168).  For each call: decode the flat identifier (a
mismatch raises `HTTPException(400)`), index `list(settion_tools.keys())`
with the embedded ordinal (out of range raises `IndexError`), await
`call_tool` (its failure propagates un-caught), then append the assistant
entry and the tool entry.  A raised exception aborts the batch; the state
reached so far is returned alongside it. -/
def execCalls (toolO : ToolOracle) (keylist : List String) (deadline : Nat) :
    List ToolCall → PState → PState × Option Exc
  | [], st => (st, none)
  | tc :: rest, st =>
    match resolveFlat tc.name with
    | none => (st, some (.httpExc 400 ("Invalid tool call format: " ++ tc.name)))
    | some pr =>
      match keylist.get? pr.1 with
      | none => (st, some .indexError)
      | some srv =>
        let b := toolO srv pr.2 tc.arguments
        let st1 : PState :=
          { st with events := st.events ++ [.toolInvoke srv pr.2 tc.arguments],
                    elapsed := st.elapsed + b.dur }
        if deadline < st1.elapsed then (st1, some .timeoutError)
        else
          match b.result with
          | .err m => (st1, some (.generic m))
          | .ok content =>
            let m1 := st1.messages ++ [assistantEntry tc pr.2]
            let m2 := m1 ++ [toolEntry tc content]
            execCalls toolO keylist deadline rest
              { st1 with messages := m2,
                         snaps := (st1.snaps ++ [m1]) ++ [m2],
                         toolResults := st1.toolResults ++ [(pr.2, content)] }

/-- The `final_text` update the loop performs on receiving a model
response: truthy content (a nonempty string) is appended, anything else is
ignored (mirrors `if message.content: final_text.append(message.content)`,
source lines 179–180). -/
def contentAppend (content : Option String) (st : PState) : PState :=
  match content with
  | some c => if c = "" then st else { st with finalText := st.finalText ++ [c] }
  | none => st

/-- Embedding of the `while message and message.tool_calls` loop (source
lines 125–182), driven by the remaining model script.  Each iteration
executes the current batch, then awaits the next model response (this
second `create` call is *not* wrapped in a `try`, so its failure propagates
raw) and appends its truthy text content to `final_text`.  A drained script
while another model call is needed is reported as `Exc.scriptEnd` (a
modelling artifact standing for a world that ends the interaction). -/
def loopModel (toolO : ToolOracle) (keylist : List String) (tools : List FlatSpec)
    (deadline : Nat) :
    List ScriptEntry → ModelMessage → PState → PState × Outcome String
  | [], msg, st =>
    if msg.toolCalls = [] then (st, .ok (String.join st.finalText))
    else
      match execCalls toolO keylist deadline msg.toolCalls st with
      | (st1, some e) => (st1, .raised e)
      | (st1, none) => (st1, .raised .scriptEnd)
  | entry :: rest, msg, st =>
    if msg.toolCalls = [] then (st, .ok (String.join st.finalText))
    else
      match execCalls toolO keylist deadline msg.toolCalls st with
      | (st1, some e) => (st1, .raised e)
      | (st1, none) =>
        let st2 : PState :=
          { st1 with events := st1.events ++ [.modelCall st1.messages tools],
                     elapsed := st1.elapsed + entry.dur }
        if deadline < st2.elapsed then (st2, .raised .timeoutError)
        else
          match entry.result with
          | .err m => (st2, .raised (.generic m))
          | .ok m2 => loopModel toolO keylist tools deadline rest m2 (contentAppend m2.content st2)

/-- Embedding of `MCPClient.process_query` (source lines 74–182) under a
`wait_for` budget of `deadline` time units.  An empty session map raises
`HTTPException(400)` before anything else; the first `create` call is
wrapped in a `try` that re-raises as `HTTPException(500)`; the first
response's text is *not* appended to `final_text` (source line 123 is
commented out).  The global OpenAI client configuration read from
`config.yaml` does not influence the modelled behaviour and is omitted. -/
def process_query (reg : RegState) (query : String) (deadline : Nat)
    (script : List ScriptEntry) (toolO : ToolOracle) : PState × Outcome String :=
  if reg.sessions = [] then
    (PState.empty, .raised (.httpExc 400 "No active MCP connections"))
  else
    let messages := [Msg.user query]
    let tools := buildAvailableTools reg.settionTools
    match script with
    | [] => (⟨messages, [messages], [], [], [], 0⟩, .raised .scriptEnd)
    | entry :: rest =>
      let st1 : PState := ⟨messages, [messages], [], [], [.modelCall messages tools], entry.dur⟩
      if deadline < st1.elapsed then (st1, .raised .timeoutError)
      else
        match entry.result with
        | .err m => (st1, .raised (.httpExc 500 ("OpenAI API调用失败: " ++ m)))
        | .ok m0 => loopModel toolO (reg.settionTools.map Prod.fst) tools deadline rest m0 st1

/-! ### Request handler -/

/-- Python `str()` of the exceptions the request can propagate
(`HTTPException.__str__` is `f"{status_code}: {detail}"`; `str` of a
`KeyError` is the `repr` of the key; `str(asyncio.TimeoutError())` is
empty; `IndexError` from list indexing carries this fixed message). -/
def strOfExc : Exc → String
  | .httpExc status detail => pyStrNat status ++ ": " ++ detail
  | .keyError key => "'" ++ key ++ "'"
  | .indexError => "list index out of range"
  | .timeoutError => ""
  | .generic m => m
  | .scriptEnd => "model script exhausted"

/-- What the caller observes from one request, plus the ghost observations
needed to state the claims. -/
structure HandleResult where
  outcome : Outcome String
  cleanupAttempts : List (String × Bool)
  reg : RegState
  pstate : PState
deriving DecidableEq

/-- Embedding of the `/mcpcall` handler (source lines 184–201).  A fresh
client is built, connect runs (outside any deadline), then `process_query`
runs under `asyncio.wait_for(..., 300.0)`; `asyncio.TimeoutError` is turned
into `HTTPException(504)`, and the final `except Exception` clause — which
also catches `HTTPException`, a subclass of `Exception` — re-raises
everything as `HTTPException(500, detail=str(e))`.  The `finally` clause
runs `cleanup` on every exit path. -/
def handle_query (connO : String → ConnectBehavior) (script : List ScriptEntry)
    (toolO : ToolOracle) (closeOk : String → Bool) (query : String)
    (servers : MCPServers) : HandleResult :=
  let c := connectServers connO servers RegState.empty
  match c.2 with
  | some e =>
    ⟨.raised (.httpExc 500 (strOfExc e)), cleanup closeOk c.1, c.1, PState.empty⟩
  | none =>
    let p := process_query c.1 query 300 script toolO
    match p.2 with
    | .ok s => ⟨.ok s, cleanup closeOk c.1, c.1, p.1⟩
    | .raised .timeoutError =>
      ⟨.raised (.httpExc 500 (strOfExc (.httpExc 504 "Request timeout"))),
        cleanup closeOk c.1, c.1, p.1⟩
    | .raised e => ⟨.raised (.httpExc 500 (strOfExc e)), cleanup closeOk c.1, c.1, p.1⟩

/-! ### Observation and specification helpers

These definitions do not embed source code; they are the vocabulary in
which the properties below are *stated* (transcript well-formedness, batch
bookkeeping, event classification). -/

/-- Does an assistant entry carry a call with the given id? -/
def assistantHasId : Msg → String → Bool
  | .assistant cs, i => cs.any fun c => c.id = i
  | _, _ => false

/-- Check of one adjacent transcript pair: a tool entry must be immediately
preceded by an assistant entry carrying its call id. -/
def pairCheck (prev m : Msg) : Bool :=
  match m with
  | .toolRes i _ => assistantHasId prev i
  | _ => true

/-- All adjacent pairs of `prev :: l` satisfy `pairCheck`. -/
def pairsOk : Msg → List Msg → Bool
  | _, [] => true
  | prev, m :: rest => pairCheck prev m && pairsOk m rest

/-- The transcript invariant: every tool entry has an immediate predecessor
that is an assistant entry carrying the matching tool-call id. -/
def toolPrecededOk : List Msg → Bool
  | [] => true
  | m :: rest =>
    (match m with
     | .toolRes _ _ => false
     | _ => true) && pairsOk m rest

/-- Event classifier: is this a model backend call? -/
def isModelCall : Event → Bool
  | .modelCall _ _ => true
  | _ => false

/-- Event classifier: is this a tool invocation? -/
def isToolInvoke : Event → Bool
  | .toolInvoke _ _ _ => true
  | _ => false

/-- A tool call whose dispatch succeeds end to end: the flat identifier
decodes, the embedded ordinal is in range and the underlying invocation
returns normally. -/
def callGood (toolO : ToolOracle) (keylist : List String) (tc : ToolCall) : Bool :=
  match resolveFlat tc.name with
  | none => false
  | some pr =>
    match keylist.get? pr.1 with
    | none => false
    | some srv =>
      match (toolO srv pr.2 tc.arguments).result with
      | .ok _ => true
      | .err _ => false

/-- The two transcript entries a successfully dispatched call appends. -/
def callEntries (toolO : ToolOracle) (keylist : List String) (tc : ToolCall) : List Msg :=
  match resolveFlat tc.name with
  | none => []
  | some pr =>
    match keylist.get? pr.1 with
    | none => []
    | some srv =>
      match (toolO srv pr.2 tc.arguments).result with
      | .ok content => [assistantEntry tc pr.2, toolEntry tc content]
      | .err _ => []

/-- The invocation event a successfully routed call produces. -/
def callEvent (_toolO : ToolOracle) (keylist : List String) (tc : ToolCall) : List Event :=
  match resolveFlat tc.name with
  | none => []
  | some pr =>
    match keylist.get? pr.1 with
    | none => []
    | some srv => [.toolInvoke srv pr.2 tc.arguments]

/-- The `tool_results` record of a successfully dispatched call. -/
def callRecord (toolO : ToolOracle) (keylist : List String) (tc : ToolCall) :
    List (String × String) :=
  match resolveFlat tc.name with
  | none => []
  | some pr =>
    match keylist.get? pr.1 with
    | none => []
    | some srv =>
      match (toolO srv pr.2 tc.arguments).result with
      | .ok content => [(pr.2, content)]
      | .err _ => []

/-- The transcript snapshots produced while executing a batch of good
calls on top of transcript `base`: one snapshot after the assistant entry,
one after the tool entry, per call, in batch order. -/
def batchSnaps (toolO : ToolOracle) (keylist : List String) :
    List Msg → List ToolCall → List (List Msg)
  | _, [] => []
  | base, tc :: rest =>
    match resolveFlat tc.name with
    | none => []
    | some pr =>
      match keylist.get? pr.1 with
      | none => []
      | some srv =>
        match (toolO srv pr.2 tc.arguments).result with
        | .err _ => []
        | .ok content =>
          (base ++ [assistantEntry tc pr.2]) ::
          (base ++ [assistantEntry tc pr.2, toolEntry tc content]) ::
          batchSnaps toolO keylist
            (base ++ [assistantEntry tc pr.2, toolEntry tc content]) rest

/-- A provider selected and registered by the connect loop: its declared
type is `"sse"` and its connect attempt got as far as registering the
session (even if the subsequent `list_tools` failed). -/
def providerRegisters (connO : String → ConnectBehavior) (p : String × ServerCfg) : Bool :=
  decide (p.2.lookup "type" = some "sse") &&
    (match (connO p.1).outcome with
     | .fail => false
     | .toolsFail _ => true
     | .ok _ => true)

/-- A provider that additionally got its capability list fetched, hence
appears in `settion_tools` (the tool catalog). -/
def providerListed (connO : String → ConnectBehavior) (p : String × ServerCfg) : Bool :=
  decide (p.2.lookup "type" = some "sse") &&
    (match (connO p.1).outcome with
     | .ok _ => true
     | _ => false)

/-- The tools the world reports for a provider (empty unless the outcome
is a successful list). -/
def toolsOf : ConnectOutcome → List Tool
  | .ok ts => ts
  | _ => []

/-! ### Concrete scenario data used by the closed theorems below -/

/-- One provider `"a"` declared with type `"sse"`. -/
def serversA : MCPServers := [("a", [("type", "sse"), ("url", "u")])]

/-- A provider declared without a `"type"` key. -/
def serversNoType : MCPServers := [("a", [("url", "u")])]

/-- Connect world: every provider connects instantly and lists one tool
named `"t"`. -/
def connA : String → ConnectBehavior := fun _ => ⟨0, .ok [⟨"t", "d", "s"⟩]⟩

/-- Connect world: like `connA` but each attempt takes 100000 time units. -/
def connSlow : String → ConnectBehavior := fun _ => ⟨100000, .ok [⟨"t", "d", "s"⟩]⟩

/-- Tool world: every invocation returns `"r"` instantly. -/
def toolOA : ToolOracle := fun _ _ _ => ⟨0, .ok "r"⟩

/-- Tool world: every invocation raises an exception whose string is
`"boom"`. -/
def toolFailO : ToolOracle := fun _ _ _ => ⟨0, .err "boom"⟩

/-- Close world: every `aclose` succeeds. -/
def closeA : String → Bool := fun _ => true

/-- Registry of a request in which provider `"a"` connected with one tool
`"t"` (what `connectServers connA serversA` produces). -/
def regA : RegState := ⟨["a"], [("a", [⟨"t", "d", "s"⟩])], ["a"]⟩

/-- Three providers: two declared `"sse"`, one declared `"http"`. -/
def serversMix : MCPServers :=
  [("a", [("type", "sse"), ("url", "u")]),
   ("b", [("type", "sse"), ("url", "v")]),
   ("c", [("type", "http"), ("url", "w")])]

/-- Connect world for `serversMix`: provider `"b"` fails to connect, every
other provider connects with one tool `"t"`. -/
def connMix : String → ConnectBehavior := fun n =>
  if n = "b" then ⟨0, .fail⟩ else ⟨0, .ok [⟨"t", "d", "s"⟩]⟩

/-- Connect world: every session connects but its `list_tools` call
fails. -/
def connListFail : String → ConnectBehavior := fun _ => ⟨0, .toolsFail "lt"⟩

/-- Script: the very first model response has no tool calls and text
`"T"`. -/
def scriptTextOnly : List ScriptEntry := [⟨0, .ok ⟨some "T", []⟩⟩]

/-- Script: the first model response requests one call to an identifier
whose embedded ordinal (5) is out of range for a single provider. -/
def scriptOutOfRange : List ScriptEntry := [⟨0, .ok ⟨none, [⟨"i1", "server_5_t", "x"⟩]⟩⟩]

/-- Script: the first model response requests one well-formed call to
provider 0's tool `"t"`. -/
def scriptOneCall : List ScriptEntry := [⟨0, .ok ⟨none, [⟨"i1", "server_0_t", "x"⟩]⟩⟩]

/-- Script: the first `create` call takes 301 time units, exceeding the
300-unit `wait_for` budget. -/
def scriptSlow : List ScriptEntry := [⟨301, .ok ⟨some "T", []⟩⟩]

/-- Last element of `prev :: l`; used to reason about appending to a
transcript. -/
def lastMsg (prev : Msg) : List Msg → Msg
  | [] => prev
  | m :: rest => lastMsg m rest

/-- Is this transcript entry anything but a tool entry? -/
def notToolEntry : Msg → Bool
  | .toolRes _ _ => false
  | _ => true

/-- The driver-state invariant behind C9: the recorded snapshots form a
prefix chain (the transcript is append-only), every snapshot satisfies the
tool-precedence property, the current transcript satisfies it too, and the
latest snapshot is the current transcript. -/
def SnapInv (st : PState) : Prop :=
  List.Chain' List.IsPrefix st.snaps ∧
  (∀ s ∈ st.snaps, toolPrecededOk s = true) ∧
  toolPrecededOk st.messages = true ∧
  (st.snaps = [] ∨ st.snaps.getLast? = some st.messages)

/-- A two-call batch aimed at provider 0's tool `"t"`. -/
def callsTwo : List ToolCall := [⟨"i1", "server_0_t", "x"⟩, ⟨"i2", "server_0_t", "y"⟩]

/-! ## Proof layer -/

theorem digitVal_digitChar (d : Nat) (h : d < 10) : digitVal (Nat.digitChar d) = d := by
  interval_cases d <;> rfl

theorem isDigit_digitChar (d : Nat) (h : d < 10) : (Nat.digitChar d).isDigit = true := by
  interval_cases d <;> rfl

theorem toDecimalAux_all_digits (fuel : Nat) :
    ∀ n, n ≤ fuel → ∀ c ∈ toDecimalAux fuel n, c.isDigit = true := by
  induction fuel with
  | zero => intro n _ c hc; simp [toDecimalAux] at hc
  | succ f ih =>
    intro n hn c hc
    cases n with
    | zero => simp [toDecimalAux] at hc
    | succ m =>
      simp only [toDecimalAux, List.mem_cons] at hc
      rcases hc with hc | hc
      · subst hc; exact isDigit_digitChar _ (Nat.mod_lt _ (by omega))
      · have hlt : (m + 1) / 10 < m + 1 := Nat.div_lt_self (Nat.succ_pos m) (by omega)
        exact ih ((m + 1) / 10) (by omega) c hc

theorem foldl_toDecimalAux (fuel : Nat) :
    ∀ n acc, n ≤ fuel →
      List.foldl (fun a c => 10 * a + digitVal c) acc (toDecimalAux fuel n).reverse
        = acc * 10 ^ (toDecimalAux fuel n).length + n := by
  induction fuel with
  | zero =>
    intro n acc hn
    have h0 : n = 0 := by omega
    subst h0
    simp [toDecimalAux]
  | succ f ih =>
    intro n acc hn
    cases n with
    | zero => simp [toDecimalAux]
    | succ m =>
      have hlt : (m + 1) / 10 < m + 1 := Nat.div_lt_self (Nat.succ_pos m) (by omega)
      have hdm := Nat.div_add_mod (m + 1) 10
      simp only [toDecimalAux, List.reverse_cons, List.foldl_append, List.foldl_cons,
        List.foldl_nil, List.length_cons]
      rw [ih _ acc (by omega), digitVal_digitChar _ (Nat.mod_lt _ (by omega)),
        Nat.mul_add, Nat.add_assoc, hdm, pow_succ]
      ring

theorem parseDigits_pyStrNat (n : Nat) : parseDigits (pyStrNat n).data = n := by
  unfold pyStrNat
  by_cases h : n = 0
  · subst h; rfl
  · rw [if_neg h]
    have := foldl_toDecimalAux n n 0 (le_refl n)
    simpa [parseDigits] using this

theorem pyStrNat_all_digits (n : Nat) : ∀ c ∈ (pyStrNat n).data, c.isDigit = true := by
  unfold pyStrNat
  by_cases h : n = 0
  · subst h
    intro c hc
    have hc0 : c = '0' := by simpa using hc
    subst hc0; rfl
  · rw [if_neg h]
    intro c hc
    exact toDecimalAux_all_digits n n (le_refl n) c (List.mem_reverse.mp hc)

theorem pyStrNat_ne_nil (n : Nat) : (pyStrNat n).data ≠ [] := by
  unfold pyStrNat
  by_cases h : n = 0
  · subst h; simp
  · rw [if_neg h]
    cases n with
    | zero => exact absurd rfl h
    | succ m => simp [toDecimalAux]

theorem stripLit_append (p : List Char) : ∀ s, stripLit p (p ++ s) = some s := by
  induction p with
  | nil => intro s; rfl
  | cons c cs ih => intro s; simp [stripLit, ih]

theorem takeWhile_append_stop {p : Char → Bool} (l₁ : List Char) (c : Char) (l₂ : List Char)
    (h : ∀ x ∈ l₁, p x = true) (hc : p c = false) :
    (l₁ ++ c :: l₂).takeWhile p = l₁ ∧ (l₁ ++ c :: l₂).dropWhile p = c :: l₂ := by
  induction l₁ with
  | nil => simp [List.takeWhile, List.dropWhile, hc]
  | cons x xs ih =>
    have hx : p x = true := h x (by simp)
    have ihh := ih fun y hy => h y (by simp [hy])
    simp [List.takeWhile_cons, List.dropWhile_cons, hx, ihh.1, ihh.2]

theorem takeWhile_no_newline (l : List Char) (h : '\n' ∉ l) :
    l.takeWhile (fun c => c ≠ '\n') = l := by
  induction l with
  | nil => rfl
  | cons x xs ih =>
    have hx : x ≠ '\n' := fun e => h (by simp [e])
    have hxs : '\n' ∉ xs := fun hm => h (List.mem_cons_of_mem _ hm)
    have hxb : decide (x ≠ '\n') = true := by simp [hx]
    simp only [List.takeWhile_cons, hxb, if_true]
    rw [ih hxs]

theorem mangle_data (i : Nat) (n : String) :
    (mangle i n).data = "server_".data ++ ((pyStrNat i).data ++ '_' :: n.data) := by
  simp [mangle, String.data_append]

theorem resolveFlat_mangle (i : Nat) (n : String) (hne : n ≠ "") (hnl : '\n' ∉ n.data) :
    resolveFlat (mangle i n) = some (i, n) := by
  have hdata : n.data ≠ [] := by
    intro hd
    apply hne
    obtain ⟨d⟩ := n
    change d = [] at hd
    subst hd
    rfl
  have hstop := takeWhile_append_stop (pyStrNat i).data '_' n.data
    (pyStrNat_all_digits i) (by decide)
  unfold resolveFlat
  rw [mangle_data, stripLit_append]
  simp only [hstop.1, hstop.2]
  rw [if_neg (pyStrNat_ne_nil i), takeWhile_no_newline n.data hnl,
    if_neg hdata, parseDigits_pyStrNat]

/-- C1 (amended): for every provider ordinal and every *nonempty* local
tool name that contains *no newline character*, decoding the flat
identifier built from the pair yields the pair back, and two distinct
provider ordinals give distinct flat identifiers for the same local tool
name (each resolving back to its own provider, by the first conjunct). -/
theorem c1_roundtrip_amended (i j : Nat) (name : String)
    (hne : name ≠ "") (hnl : '\n' ∉ name.data) :
    resolveFlat (mangle i name) = some (i, name) ∧
    (i ≠ j → mangle i name ≠ mangle j name) := by
  refine ⟨resolveFlat_mangle i name hne hnl, fun hij he => hij ?_⟩
  have h1 := resolveFlat_mangle i name hne hnl
  rw [he, resolveFlat_mangle j name hne hnl] at h1
  exact (congrArg Prod.fst (Option.some.inj h1)).symm

/-- Witness for `c1_roundtrip_amended` at ordinals 0 and 1 and tool name
`"x"` (the spec's uniqueness scenario). -/
theorem c1_roundtrip_amended_witness :
    resolveFlat (mangle 0 "x") = some (0, "x") ∧
    (0 ≠ 1 → mangle 0 "x" ≠ mangle 1 "x") :=
  c1_roundtrip_amended 0 1 "x" (by decide) (by decide)

/-- C1 counterexample: the round-trip does *not* hold for every local tool
name.  A name containing a newline is truncated at the newline by the
regex (`.` does not match `\n` and `re.match` needs no full match), so the
identifier resolves to the *wrong* pair; an empty name does not resolve at
all (`(.+)` needs at least one character). -/
theorem c1_roundtrip_counterexample :
    resolveFlat (mangle 0 "a\nb") = some (0, "a") ∧
    resolveFlat (mangle 0 "a\nb") ≠ some (0, "a\nb") ∧
    resolveFlat (mangle 0 "") = none := by decide

/-! ### Connect-phase lemmas -/

theorem connectServers_outcomes (connO connO2 : String → ConnectBehavior)
    (h : ∀ n, (connO n).outcome = (connO2 n).outcome) :
    ∀ (servers : MCPServers) (st : RegState),
      connectServers connO servers st = connectServers connO2 servers st := by
  intro servers
  induction servers with
  | nil => intro st; rfl
  | cons p rest ih =>
    intro st
    obtain ⟨name, scfg⟩ := p
    simp only [connectServers]
    cases hty : scfg.lookup "type" with
    | none => rfl
    | some ty =>
      by_cases hsse : ty = "sse"
      · subst hsse
        rw [← h name]
        cases (connO name).outcome <;> simp [ih]
      · simp [hsse, ih]

theorem connectServers_characterization (connO : String → ConnectBehavior) :
    ∀ (servers : MCPServers) (st : RegState),
      (∀ p ∈ servers, ((p.2 : ServerCfg).lookup "type").isSome = true) →
      connectServers connO servers st =
        ({ sessions := st.sessions ++ (servers.filter (providerRegisters connO)).map Prod.fst,
           settionTools := st.settionTools ++
             (servers.filter (providerListed connO)).map
               (fun p => (p.1, toolsOf (connO p.1).outcome)),
           exitStacks :=
             st.exitStacks ++ (servers.filter (providerRegisters connO)).map Prod.fst },
         none) := by
  intro servers
  induction servers with
  | nil => intro st _; simp [connectServers]
  | cons p rest ih =>
    intro st h
    obtain ⟨name, scfg⟩ := p
    obtain ⟨ty, hty⟩ := Option.isSome_iff_exists.mp (h _ (List.mem_cons_self _ _))
    have hrest : ∀ q ∈ rest, ((q.2 : ServerCfg).lookup "type").isSome = true :=
      fun q hq => h q (List.mem_cons_of_mem _ hq)
    by_cases hsse : ty = "sse"
    · subst hsse
      cases hout : (connO name).outcome with
      | fail =>
        simp [connectServers, hty, providerRegisters, providerListed, hout,
          ih st hrest, List.filter_cons]
      | toolsFail why =>
        simp [connectServers, hty, providerRegisters, providerListed, hout,
          ih _ hrest, List.filter_cons, List.append_assoc]
      | ok tools =>
        simp [connectServers, hty, providerRegisters, providerListed, hout, toolsOf,
          ih _ hrest, List.filter_cons, List.append_assoc]
    · simp [connectServers, hty, hsse, providerRegisters, providerListed,
        ih st hrest, List.filter_cons]

theorem connectServers_exitStacks_sublist (connO : String → ConnectBehavior) :
    ∀ (servers : MCPServers) (st : RegState),
      ∃ l, (connectServers connO servers st).1.exitStacks = st.exitStacks ++ l ∧
        l.Sublist (servers.map Prod.fst) := by
  intro servers
  induction servers with
  | nil => intro st; exact ⟨[], by simp [connectServers], List.nil_sublist _⟩
  | cons p rest ih =>
    intro st
    obtain ⟨name, scfg⟩ := p
    cases hty : scfg.lookup "type" with
    | none =>
      refine ⟨[], ?_, List.nil_sublist _⟩
      simp [connectServers, hty]
    | some ty =>
      by_cases hsse : ty = "sse"
      · subst hsse
        cases hout : (connO name).outcome with
        | fail =>
          obtain ⟨l, hl, hsub⟩ := ih st
          refine ⟨l, ?_, hsub.cons name⟩
          simpa [connectServers, hty, hout] using hl
        | toolsFail why =>
          obtain ⟨l, hl, hsub⟩ := ih
            { st with sessions := st.sessions ++ [name],
                      exitStacks := st.exitStacks ++ [name] }
          refine ⟨name :: l, ?_, hsub.cons₂ name⟩
          simp only [connectServers, hty, hout]
          simpa [List.append_assoc] using hl
        | ok tools =>
          obtain ⟨l, hl, hsub⟩ := ih
            { st with sessions := st.sessions ++ [name],
                      exitStacks := st.exitStacks ++ [name],
                      settionTools := st.settionTools ++ [(name, tools)] }
          refine ⟨name :: l, ?_, hsub.cons₂ name⟩
          simp only [connectServers, hty, hout]
          simpa [List.append_assoc] using hl
      · obtain ⟨l, hl, hsub⟩ := ih st
        refine ⟨l, ?_, hsub.cons name⟩
        simpa [connectServers, hty, hsse] using hl

/-- C6 (amended): for every provider list in which each provider's config
carries a `"type"` key, the connect phase never raises; each `"sse"`
provider is attempted independently (one failure does not abort the
others); the *session map* holds exactly the providers whose connect
attempt registered a session, the *tool catalog* holds exactly those whose
`list_tools` fetch also succeeded (empty if all fail), and non-`"sse"`
providers are skipped. -/
theorem c6_connect_amended (connO : String → ConnectBehavior) (servers : MCPServers)
    (h : ∀ p ∈ servers, ((p.2 : ServerCfg).lookup "type").isSome = true) :
    (connectServers connO servers RegState.empty).2 = none ∧
    (connectServers connO servers RegState.empty).1.sessions
      = (servers.filter (providerRegisters connO)).map Prod.fst ∧
    (connectServers connO servers RegState.empty).1.settionTools
      = (servers.filter (providerListed connO)).map
          (fun p => (p.1, toolsOf (connO p.1).outcome)) ∧
    (connectServers connO servers RegState.empty).1.exitStacks
      = (servers.filter (providerRegisters connO)).map Prod.fst := by
  rw [connectServers_characterization connO servers RegState.empty h]
  simp [RegState.empty]

/-- Witness for `c6_connect_amended` on a mixed world: one provider
connects, one fails, one is declared with a non-sse type. -/
theorem c6_connect_amended_witness :
    (connectServers connMix serversMix RegState.empty).2 = none ∧
    (connectServers connMix serversMix RegState.empty).1.sessions
      = (serversMix.filter (providerRegisters connMix)).map Prod.fst ∧
    (connectServers connMix serversMix RegState.empty).1.settionTools
      = (serversMix.filter (providerListed connMix)).map
          (fun p => (p.1, toolsOf (connMix p.1).outcome)) ∧
    (connectServers connMix serversMix RegState.empty).1.exitStacks
      = (serversMix.filter (providerRegisters connMix)).map Prod.fst :=
  c6_connect_amended connMix serversMix (by decide)

/-- C6 counterexample: the connect phase *can* raise out of the registry —
a provider config without a `"type"` key raises `KeyError` outside the
per-provider `try` (source line 44), surfacing to the caller as a 500; and
a provider whose connect succeeds but whose `list_tools` fetch fails stays
in the session map while being absent from the tool catalog, so the
session map is not the set of providers with both steps successful. -/
theorem c6_connect_counterexample :
    (connectServers connA serversNoType RegState.empty).2 = some (.keyError "type") ∧
    (handle_query connA [] toolOA closeA "q" serversNoType).outcome
      = .raised (.httpExc 500 "'type'") ∧
    (connectServers connListFail serversA RegState.empty).1.sessions = ["a"] ∧
    (connectServers connListFail serversA RegState.empty).1.settionTools = [] := by
  decide

/-- C2: on every exit path of `handle_query` (success, timeout, any
failure, connect aborting halfway), the teardown attempt list is exactly
the sessions that were ever registered, in registration order, each
attempted exactly once (the registered names are nodup), with the per
session close outcome recorded — so a failing close never curtails the
attempts on the remaining sessions, and teardown itself never raises. -/
theorem c2_teardown_totality (connO : String → ConnectBehavior) (script : List ScriptEntry)
    (toolO : ToolOracle) (closeOk : String → Bool) (query : String) (servers : MCPServers)
    (hnd : (servers.map Prod.fst).Nodup) :
    (handle_query connO script toolO closeOk query servers).cleanupAttempts
      = (connectServers connO servers RegState.empty).1.exitStacks.map
          (fun n => (n, closeOk n)) ∧
    (connectServers connO servers RegState.empty).1.exitStacks.Nodup := by
  constructor
  · simp only [handle_query, cleanup]
    split
    · rfl
    · split <;> rfl
  · obtain ⟨l, hl, hsub⟩ := connectServers_exitStacks_sublist connO servers RegState.empty
    rw [hl]
    simp only [RegState.empty, List.nil_append]
    exact hnd.sublist hsub

/-- Witness for `c2_teardown_totality` on the mixed world. -/
theorem c2_teardown_totality_witness :
    (handle_query connMix [] toolOA closeA "q" serversMix).cleanupAttempts
      = (connectServers connMix serversMix RegState.empty).1.exitStacks.map
          (fun n => (n, closeA n)) ∧
    (connectServers connMix serversMix RegState.empty).1.exitStacks.Nodup :=
  c2_teardown_totality connMix [] toolOA closeA "q" serversMix (by decide)

/-- C10: every exception propagating inside the handler body — including
the internally raised `HTTPException(400)` and `HTTPException(504)`, since
`HTTPException` is an `Exception` subclass — is caught by the final
generic clause and re-raised as status 500 with the original error's
string form as detail; hence every failing request is answered with
status 500. -/
theorem c10_generic_500 (connO : String → ConnectBehavior) (script : List ScriptEntry)
    (toolO : ToolOracle) (closeOk : String → Bool) (query : String) (servers : MCPServers)
    (e : Exc)
    (h : (handle_query connO script toolO closeOk query servers).outcome = .raised e) :
    ∃ e0, e = .httpExc 500 (strOfExc e0) := by
  simp only [handle_query] at h
  split at h
  · exact ⟨_, (Outcome.raised.inj h).symm⟩
  · split at h
    · exact absurd h (by simp)
    · exact ⟨_, (Outcome.raised.inj h).symm⟩
    · exact ⟨_, (Outcome.raised.inj h).symm⟩

/-- Witness for `c10_generic_500`: the empty provider list makes the
request fail, and the failure is a 500 wrapping the internal 400. -/
theorem c10_generic_500_witness :
    ∃ e0, Exc.httpExc 500 "400: No active MCP connections" = .httpExc 500 (strOfExc e0) :=
  c10_generic_500 connA [] toolOA closeA "q" []
    (.httpExc 500 "400: No active MCP connections") (by decide)

/-- C4 (code bug): the cases the claim assigns to status 400 actually
reach the caller as status 500.  With zero connected providers the
internal `HTTPException(400, "No active MCP connections")` is re-wrapped
by the handler's generic clause into a 500 (though indeed no model call is
made); and a flat identifier with an out-of-range ordinal raises a bare
`IndexError` (there is no bounds check on `keylist[int(server_index)]`),
which also surfaces as a 500 — no tool is invoked for that identifier, but
no 400 is ever produced. -/
theorem c4_status_divergence :
    (handle_query connA [] toolOA closeA "q" []).outcome
      = .raised (.httpExc 500 "400: No active MCP connections") ∧
    (handle_query connA [] toolOA closeA "q" []).pstate.events = [] ∧
    (handle_query connA scriptOutOfRange toolOA closeA "q" serversA).outcome
      = .raised (.httpExc 500 "list index out of range") ∧
    (handle_query connA scriptOutOfRange toolOA closeA "q" serversA).pstate.events.filter
        isToolInvoke = [] := by
  decide

/-- C5 counterexample: the deadline does not cover the whole request and
its expiry does not reach the caller as 504.  A connect phase declared to
take 100000 time units still succeeds (only the loop runs under
`wait_for`), and a first model call of 301 units trips the deadline but
the caller receives status 500 (wrapping the internal 504), which differs
from the 504 failure the claim promises. -/
theorem c5_deadline_counterexample :
    (handle_query connSlow scriptTextOnly toolOA closeA "q" serversA).outcome = .ok "" ∧
    (connSlow "a").dur = 100000 ∧
    (handle_query connA scriptSlow toolOA closeA "q" serversA).outcome
      = .raised (.httpExc 500 "504: Request timeout") ∧
    Exc.httpExc 500 "504: Request timeout" ≠ .httpExc 504 "Request timeout" := by
  decide

/-- C5 (amended): only the model/tool loop runs under the 300-unit
deadline — the connect phase is outside `wait_for`, so the request's
outcome depends on the connect world only through the connect *outcomes*,
never the connect durations; when the loop does exceed the deadline the
in-flight operation is cancelled and surfaces as an internal 504 that the
handler's generic clause re-raises as a 500 whose detail records the 504,
and teardown still runs over every registered session. -/
theorem c5_deadline_amended (connO connO2 : String → ConnectBehavior)
    (script : List ScriptEntry) (toolO : ToolOracle) (closeOk : String → Bool)
    (query : String) (servers : MCPServers)
    (hout : ∀ n, (connO n).outcome = (connO2 n).outcome)
    (hc : (connectServers connO servers RegState.empty).2 = none)
    (ht : (process_query (connectServers connO servers RegState.empty).1
        query 300 script toolO).2 = .raised .timeoutError) :
    handle_query connO script toolO closeOk query servers
      = handle_query connO2 script toolO closeOk query servers ∧
    (handle_query connO script toolO closeOk query servers).outcome
      = .raised (.httpExc 500 "504: Request timeout") ∧
    (handle_query connO script toolO closeOk query servers).cleanupAttempts
      = (connectServers connO servers RegState.empty).1.exitStacks.map
          (fun n => (n, closeOk n)) := by
  refine ⟨?_, ?_, ?_⟩
  · unfold handle_query
    rw [connectServers_outcomes connO connO2 hout]
  · simp only [handle_query, hc, ht]
    rfl
  · simp only [handle_query, cleanup, hc, ht]

/-- Witness for `c5_deadline_amended`: a first model call of 301 units. -/
theorem c5_deadline_amended_witness :
    handle_query connA scriptSlow toolOA closeA "q" serversA
      = handle_query connA scriptSlow toolOA closeA "q" serversA ∧
    (handle_query connA scriptSlow toolOA closeA "q" serversA).outcome
      = .raised (.httpExc 500 "504: Request timeout") ∧
    (handle_query connA scriptSlow toolOA closeA "q" serversA).cleanupAttempts
      = (connectServers connA serversA RegState.empty).1.exitStacks.map
          (fun n => (n, closeA n)) :=
  c5_deadline_amended connA connA scriptSlow toolOA closeA "q" serversA
    (fun _ => rfl) (by decide) (by decide)

/-! ### Driver-loop lemmas -/

theorem callGood_spec (toolO : ToolOracle) (keylist : List String) (tc : ToolCall)
    (h : callGood toolO keylist tc = true) :
    ∃ pr srv content, resolveFlat tc.name = some pr ∧ keylist.get? pr.1 = some srv ∧
      (toolO srv pr.2 tc.arguments).result = .ok content := by
  unfold callGood at h
  split at h
  · simp at h
  · rename_i pr hpr
    split at h
    · simp at h
    · rename_i srv hsrv
      split at h
      · rename_i content hcontent
        exact ⟨pr, srv, content, hpr, hsrv, hcontent⟩
      · simp at h

theorem execCalls_good (toolO : ToolOracle) (keylist : List String) (deadline : Nat) :
    ∀ (calls : List ToolCall) (st : PState),
      (∀ tc ∈ calls, callGood toolO keylist tc = true) →
      (∀ s t a, (toolO s t a).dur = 0) →
      st.elapsed ≤ deadline →
      execCalls toolO keylist deadline calls st =
        ({ st with
            messages := st.messages ++ (calls.map (callEntries toolO keylist)).flatten,
            snaps := st.snaps ++ batchSnaps toolO keylist st.messages calls,
            events := st.events ++ (calls.map (callEvent toolO keylist)).flatten,
            toolResults :=
              st.toolResults ++ (calls.map (callRecord toolO keylist)).flatten },
         none) := by
  intro calls
  induction calls with
  | nil => intro st _ _ _; simp [execCalls, batchSnaps]
  | cons tc rest ih =>
    intro st hgood hdur hel
    obtain ⟨pr, srv, content, h1, h2, h3⟩ :=
      callGood_spec toolO keylist tc (hgood tc (List.mem_cons_self _ _))
    have hd0 : (toolO srv pr.2 tc.arguments).dur = 0 := hdur _ _ _
    have hrest : ∀ tc2 ∈ rest, callGood toolO keylist tc2 = true :=
      fun tc2 htc2 => hgood tc2 (List.mem_cons_of_mem _ htc2)
    simp only [execCalls, h1, h2, h3, hd0, Nat.add_zero]
    rw [if_neg (Nat.not_lt.mpr hel)]
    rw [ih _ hrest hdur (by simpa using hel)]
    simp only [callEntries, callEvent, callRecord, batchSnaps, h1, h2, h3, List.map_cons,
      List.flatten_cons]
    simp [List.append_assoc]

theorem loopModel_done (toolO : ToolOracle) (keylist : List String) (tools : List FlatSpec)
    (deadline : Nat) (script : List ScriptEntry) (msg : ModelMessage) (st : PState)
    (h : msg.toolCalls = []) :
    loopModel toolO keylist tools deadline script msg st
      = (st, .ok (String.join st.finalText)) := by
  cases script <;> simp [loopModel, h]

theorem loopModel_step (toolO : ToolOracle) (keylist : List String) (tools : List FlatSpec)
    (entry : ScriptEntry) (rest : List ScriptEntry) (msg m2 : ModelMessage) (st : PState)
    (hne : msg.toolCalls ≠ [])
    (hgood : ∀ tc ∈ msg.toolCalls, callGood toolO keylist tc = true)
    (hdur : ∀ s t a, (toolO s t a).dur = 0)
    (hed : entry.dur = 0)
    (hel : st.elapsed ≤ 300)
    (hres : entry.result = .ok m2) :
    loopModel toolO keylist tools 300 (entry :: rest) msg st
      = loopModel toolO keylist tools 300 rest m2
          (contentAppend m2.content
            { st with
              messages := st.messages ++ (msg.toolCalls.map (callEntries toolO keylist)).flatten,
              snaps := st.snaps ++ batchSnaps toolO keylist st.messages msg.toolCalls,
              events :=
                (st.events ++ (msg.toolCalls.map (callEvent toolO keylist)).flatten)
                  ++ [.modelCall
                       (st.messages
                         ++ (msg.toolCalls.map (callEntries toolO keylist)).flatten) tools],
              toolResults :=
                st.toolResults ++ (msg.toolCalls.map (callRecord toolO keylist)).flatten }) := by
  simp only [loopModel, if_neg hne]
  rw [execCalls_good toolO keylist 300 msg.toolCalls st hgood hdur hel]
  simp only [hed, hres, Nat.add_zero]
  rw [if_neg (Nat.not_lt.mpr hel)]

/-- C8: within one model response carrying a batch of tool-call requests
that all dispatch successfully, the driver processes them synchronously in
the order the model returned them — the event trace is the initial model
call, then one invocation per call in batch order, then exactly one
further model call receiving the full updated transcript (the user entry
followed by each call's assistant entry and tool entry, call by call, in
order) and the *unchanged* tool catalog; the snapshot trace shows each
call's two entries appended before the next call is dispatched. -/
theorem c8_batch_order (reg : RegState) (query tFin : String) (toolO : ToolOracle)
    (c0 : Option String) (calls : List ToolCall) (rest : List ScriptEntry)
    (hs : reg.sessions ≠ [])
    (hne : calls ≠ [])
    (hgood : ∀ tc ∈ calls, callGood toolO (reg.settionTools.map Prod.fst) tc = true)
    (hdur : ∀ s t a, (toolO s t a).dur = 0) :
    process_query reg query 300
        (⟨0, .ok ⟨c0, calls⟩⟩ :: ⟨0, .ok ⟨some tFin, []⟩⟩ :: rest) toolO
      = (⟨[Msg.user query]
            ++ (calls.map (callEntries toolO (reg.settionTools.map Prod.fst))).flatten,
          [Msg.user query]
            :: batchSnaps toolO (reg.settionTools.map Prod.fst) [Msg.user query] calls,
          if tFin = "" then [] else [tFin],
          (calls.map (callRecord toolO (reg.settionTools.map Prod.fst))).flatten,
          (Event.modelCall [Msg.user query] (buildAvailableTools reg.settionTools)
            :: (calls.map (callEvent toolO (reg.settionTools.map Prod.fst))).flatten)
            ++ [Event.modelCall
                 ([Msg.user query]
                   ++ (calls.map
                        (callEntries toolO (reg.settionTools.map Prod.fst))).flatten)
                 (buildAvailableTools reg.settionTools)],
          0⟩,
         .ok (String.join (if tFin = "" then [] else [tFin]))) := by
  unfold process_query
  rw [if_neg hs]
  dsimp only
  rw [if_neg (by decide : ¬ (300 < 0))]
  rw [loopModel_step _ _ _ _ _ _ _ _ hne hgood hdur rfl (Nat.zero_le 300) rfl]
  rw [loopModel_done _ _ _ _ _ _ _ rfl]
  by_cases htF : tFin = "" <;>
    simp [contentAppend, htF, List.append_assoc]

/-- Witness for `c8_batch_order`: a two-call batch against `regA`. -/
theorem c8_batch_order_witness :
    process_query regA "q" 300
        (⟨0, .ok ⟨none, callsTwo⟩⟩ :: ⟨0, .ok ⟨some "done", []⟩⟩ :: []) toolOA
      = (⟨[Msg.user "q"]
            ++ (callsTwo.map (callEntries toolOA (regA.settionTools.map Prod.fst))).flatten,
          [Msg.user "q"]
            :: batchSnaps toolOA (regA.settionTools.map Prod.fst) [Msg.user "q"] callsTwo,
          if "done" = "" then [] else ["done"],
          (callsTwo.map (callRecord toolOA (regA.settionTools.map Prod.fst))).flatten,
          (Event.modelCall [Msg.user "q"] (buildAvailableTools regA.settionTools)
            :: (callsTwo.map (callEvent toolOA (regA.settionTools.map Prod.fst))).flatten)
            ++ [Event.modelCall
                 ([Msg.user "q"]
                   ++ (callsTwo.map
                        (callEntries toolOA (regA.settionTools.map Prod.fst))).flatten)
                 (buildAvailableTools regA.settionTools)],
          0⟩,
         .ok (String.join (if "done" = "" then [] else ["done"]))) :=
  c8_batch_order regA "q" "done" toolOA none callsTwo []
    (by decide) (by decide) (by decide) (fun _ _ _ => rfl)

/-- C3 counterexample: a request whose very first model response has no
tool calls and text `"T"` succeeds with final output `""`, not `"T"` —
the first response's text is dropped (the source's line 123 append is
commented out). -/
theorem c3_final_text_counterexample :
    (process_query regA "q" 300 scriptTextOnly toolOA).2 = .ok "" ∧
    (handle_query connA scriptTextOnly toolOA closeA "q" serversA).outcome = .ok "" ∧
    ("" : String) ≠ "T" := by
  decide

/-- C3 (amended): the loop still moves to Done exactly when a response has
no tool calls, but the output buffer differs from the claim: the text of
the *first* response is always discarded (first conjunct — whatever its
content, the final output of a first-response-terminal run is empty),
while the text of every *later* response is appended whether or not that
response also requests tool calls, in order of arrival (second conjunct: a
tool batch, then a response with text `T1` and a further batch, then a
final response with text `T2`, gives exactly `T1 ++ T2`). -/
theorem c3_final_text_amended (reg : RegState) (query T1 T2 : String) (toolO : ToolOracle)
    (c0 c1 : Option String) (calls1 calls2 : List ToolCall) (rest : List ScriptEntry)
    (hs : reg.sessions ≠ [])
    (h1 : ∀ tc ∈ calls1, callGood toolO (reg.settionTools.map Prod.fst) tc = true)
    (h2 : ∀ tc ∈ calls2, callGood toolO (reg.settionTools.map Prod.fst) tc = true)
    (hne1 : calls1 ≠ []) (hne2 : calls2 ≠ [])
    (hdur : ∀ s t a, (toolO s t a).dur = 0)
    (hT1 : T1 ≠ "") (hT2 : T2 ≠ "") :
    (process_query reg query 300 (⟨0, .ok ⟨c1, []⟩⟩ :: rest) toolO).2 = .ok "" ∧
    (process_query reg query 300
        [⟨0, .ok ⟨c0, calls1⟩⟩, ⟨0, .ok ⟨some T1, calls2⟩⟩, ⟨0, .ok ⟨some T2, []⟩⟩]
        toolO).2 = .ok (T1 ++ T2) := by
  constructor
  · unfold process_query
    rw [if_neg hs]
    dsimp only
    rw [if_neg (by decide : ¬ (300 < 0))]
    rw [loopModel_done _ _ _ _ _ _ _ rfl]
    rfl
  · unfold process_query
    rw [if_neg hs]
    dsimp only
    rw [if_neg (by decide : ¬ (300 < 0))]
    rw [loopModel_step _ _ _ _ _ _ _ _ hne1 h1 hdur rfl (Nat.zero_le 300) rfl]
    simp only [contentAppend]
    rw [if_neg hT1]
    rw [loopModel_step _ _ _ _ _ _ _ _ hne2 h2 hdur rfl (Nat.zero_le 300) rfl]
    simp only [contentAppend]
    rw [if_neg hT2]
    rw [loopModel_done _ _ _ _ _ _ _ rfl]
    obtain ⟨l1⟩ := T1
    rfl

/-- Witness for `c3_final_text_amended` with one-call batches and texts
`"alpha"`, `"beta"`. -/
theorem c3_final_text_amended_witness :
    (process_query regA "q" 300 (⟨0, .ok ⟨some "T", []⟩⟩ :: []) toolOA).2 = .ok "" ∧
    (process_query regA "q" 300
        [⟨0, .ok ⟨none, [⟨"i1", "server_0_t", "x"⟩]⟩⟩,
         ⟨0, .ok ⟨some "alpha", [⟨"i2", "server_0_t", "y"⟩]⟩⟩,
         ⟨0, .ok ⟨some "beta", []⟩⟩] toolOA).2 = .ok ("alpha" ++ "beta") :=
  c3_final_text_amended regA "q" "alpha" "beta" toolOA none (some "T")
    [⟨"i1", "server_0_t", "x"⟩] [⟨"i2", "server_0_t", "y"⟩] []
    (by decide) (by decide) (by decide) (by decide) (by decide)
    (fun _ _ _ => rfl) (by decide) (by decide)

/-- C7 counterexample: a failing dispatched tool call is *not* surfaced
into the transcript as tool output — the raw exception aborts the whole
request: the transcript still holds only the user entry, the model is
never re-invoked (one model call in the trace), and the caller gets a 500
whose detail is the bare original message, with no wrapping error type. -/
theorem c7_tool_failure_counterexample :
    (handle_query connA scriptOneCall toolFailO closeA "q" serversA).outcome
      = .raised (.httpExc 500 "boom") ∧
    (handle_query connA scriptOneCall toolFailO closeA "q" serversA).pstate.messages
      = [Msg.user "q"] ∧
    ((handle_query connA scriptOneCall toolFailO closeA "q" serversA).pstate.events.filter
        isModelCall).length = 1 := by
  decide

/-- C7 (amended): when a dispatched tool invocation fails, the underlying
exception propagates unwrapped and aborts the request: the batch stops at
the failed call with no transcript entry appended for it, exactly one
invocation event is recorded for it (so it is not retried and its siblings
are not dispatched), and the handler answers 500 with the original error
string as detail — the failure is never fed back to the model. -/
theorem c7_tool_failure_amended (toolO : ToolOracle) (keylist : List String)
    (deadline : Nat) (tc : ToolCall) (rest : List ToolCall) (st : PState)
    (pr : Nat × String) (srv m : String)
    (hres : resolveFlat tc.name = some pr)
    (hget : keylist.get? pr.1 = some srv)
    (herr : (toolO srv pr.2 tc.arguments).result = .err m)
    (htime : st.elapsed + (toolO srv pr.2 tc.arguments).dur ≤ deadline)
    (connO : String → ConnectBehavior) (script : List ScriptEntry)
    (closeOk : String → Bool) (query : String) (servers : MCPServers)
    (hc : (connectServers connO servers RegState.empty).2 = none)
    (hp : (process_query (connectServers connO servers RegState.empty).1
        query 300 script toolO).2 = .raised (.generic m)) :
    (execCalls toolO keylist deadline (tc :: rest) st).2 = some (.generic m) ∧
    (execCalls toolO keylist deadline (tc :: rest) st).1.messages = st.messages ∧
    (execCalls toolO keylist deadline (tc :: rest) st).1.events
      = st.events ++ [.toolInvoke srv pr.2 tc.arguments] ∧
    (handle_query connO script toolO closeOk query servers).outcome
      = .raised (.httpExc 500 m) := by
  refine ⟨?_, ?_, ?_, ?_⟩
  · simp only [execCalls, hres, hget, herr]
    rw [if_neg (Nat.not_lt.mpr htime)]
  · simp only [execCalls, hres, hget, herr]
    rw [if_neg (Nat.not_lt.mpr htime)]
  · simp only [execCalls, hres, hget, herr]
    rw [if_neg (Nat.not_lt.mpr htime)]
  · simp only [handle_query, hc, hp]
    rfl

/-- Witness for `c7_tool_failure_amended` on the one-provider world with a
tool oracle that raises `"boom"`. -/
theorem c7_tool_failure_amended_witness :
    (execCalls toolFailO ["a"] 300 (⟨"i1", "server_0_t", "x"⟩ :: []) PState.empty).2
      = some (.generic "boom") ∧
    (execCalls toolFailO ["a"] 300
        (⟨"i1", "server_0_t", "x"⟩ :: []) PState.empty).1.messages = PState.empty.messages ∧
    (execCalls toolFailO ["a"] 300
        (⟨"i1", "server_0_t", "x"⟩ :: []) PState.empty).1.events
      = PState.empty.events ++ [.toolInvoke "a" "t" "x"] ∧
    (handle_query connA scriptOneCall toolFailO closeA "q" serversA).outcome
      = .raised (.httpExc 500 "boom") :=
  c7_tool_failure_amended toolFailO ["a"] 300 ⟨"i1", "server_0_t", "x"⟩ [] PState.empty
    (0, "t") "a" "boom" (by decide) (by decide) (by decide) (by decide)
    connA scriptOneCall closeA "q" serversA (by decide) (by decide)

/-! ### Transcript-invariant lemmas -/

theorem pairsOk_append (l : List Msg) (m : Msg) :
    ∀ prev, pairsOk prev (l ++ [m]) = (pairsOk prev l && pairCheck (lastMsg prev l) m) := by
  induction l with
  | nil => intro prev; simp [pairsOk, lastMsg]
  | cons x xs ih => intro prev; simp [pairsOk, lastMsg, ih, Bool.and_assoc]

theorem lastMsg_append (prev : Msg) (l : List Msg) (m : Msg) :
    lastMsg prev (l ++ [m]) = m := by
  induction l generalizing prev with
  | nil => rfl
  | cons x xs ih => simpa [lastMsg] using ih x

theorem pairCheck_assistant (prev : Msg) (cs : List AsstCall) :
    pairCheck prev (.assistant cs) = true := rfl

theorem toolPrecededOk_append_assistant (l : List Msg) (cs : List AsstCall)
    (h : toolPrecededOk l = true) :
    toolPrecededOk (l ++ [Msg.assistant cs]) = true := by
  cases l with
  | nil => rfl
  | cons x xs =>
    simp only [toolPrecededOk, Bool.and_eq_true] at h
    simp only [List.cons_append, toolPrecededOk, pairsOk_append, pairCheck_assistant,
      Bool.and_true, Bool.and_eq_true]
    exact ⟨h.1, h.2⟩

theorem toolPrecededOk_append_pair (l : List Msg) (a : Msg) (i c2 : String)
    (hnt : notToolEntry a = true)
    (hpa : ∀ prev, pairCheck prev a = true)
    (hpair : pairCheck a (Msg.toolRes i c2) = true)
    (h : toolPrecededOk l = true) :
    toolPrecededOk (l ++ [a, Msg.toolRes i c2]) = true := by
  cases l with
  | nil =>
    cases a <;> simp_all [toolPrecededOk, pairsOk, notToolEntry]
  | cons x xs =>
    simp only [toolPrecededOk, Bool.and_eq_true] at h
    simp only [List.cons_append, toolPrecededOk, Bool.and_eq_true]
    refine ⟨h.1, ?_⟩
    rw [show xs ++ [a, Msg.toolRes i c2] = (xs ++ [a]) ++ [Msg.toolRes i c2] by simp]
    rw [pairsOk_append, pairsOk_append, lastMsg_append]
    simp [h.2, hpa, hpair]

theorem chain_extend (snaps : List (List Msg)) (msgs m1 m2 : List Msg)
    (hchain : List.Chain' List.IsPrefix snaps)
    (hlast : snaps = [] ∨ snaps.getLast? = some msgs)
    (hp1 : List.IsPrefix msgs m1) (hp2 : List.IsPrefix m1 m2) :
    List.Chain' List.IsPrefix ((snaps ++ [m1]) ++ [m2]) := by
  have hc1 : List.Chain' List.IsPrefix (snaps ++ [m1]) := by
    rw [List.chain'_append]
    refine ⟨hchain, List.chain'_singleton _, ?_⟩
    intro x hx y hy
    rcases hlast with hnil | hsome
    · subst hnil; simp at hx
    · rw [hsome] at hx
      simp only [Option.mem_def, Option.some.injEq] at hx hy
      rw [List.head?_cons, Option.some.injEq] at hy
      subst hx
      subst hy
      exact hp1
  rw [List.chain'_append]
  refine ⟨hc1, List.chain'_singleton _, ?_⟩
  intro x hx y hy
  rw [List.getLast?_concat] at hx
  simp only [Option.mem_def, Option.some.injEq] at hx hy
  rw [List.head?_cons, Option.some.injEq] at hy
  subst hx
  subst hy
  exact hp2

theorem execCalls_snapInv (toolO : ToolOracle) (keylist : List String) (deadline : Nat) :
    ∀ (calls : List ToolCall) (st : PState), SnapInv st →
      SnapInv (execCalls toolO keylist deadline calls st).1 := by
  intro calls
  induction calls with
  | nil => intro st h; exact h
  | cons tc rest ih =>
    intro st h
    obtain ⟨hchain, hsnaps, hmsgs, hlast⟩ := h
    unfold execCalls
    split
    · exact ⟨hchain, hsnaps, hmsgs, hlast⟩
    · rename_i pr hpr
      split
      · exact ⟨hchain, hsnaps, hmsgs, hlast⟩
      · rename_i srv hsrv
        dsimp only
        split
        · exact ⟨hchain, hsnaps, hmsgs, hlast⟩
        · split
          · exact ⟨hchain, hsnaps, hmsgs, hlast⟩
          · rename_i content hcontent
            apply ih
            have hm2 : toolPrecededOk
                ((st.messages ++ [assistantEntry tc pr.2]) ++ [toolEntry tc content])
                  = true := by
              rw [List.append_assoc]
              exact toolPrecededOk_append_pair st.messages (assistantEntry tc pr.2)
                tc.id content rfl (fun prev => rfl)
                (by simp [pairCheck, assistantEntry, assistantHasId]) hmsgs
            refine ⟨?_, ?_, hm2, ?_⟩
            · exact chain_extend st.snaps st.messages _ _ hchain hlast
                ⟨[assistantEntry tc pr.2], rfl⟩ ⟨[toolEntry tc content], rfl⟩
            · intro s hsm
              replace hsm : s ∈ (st.snaps ++ [st.messages ++ [assistantEntry tc pr.2]])
                  ++ [(st.messages ++ [assistantEntry tc pr.2])
                        ++ [toolEntry tc content]] := hsm
              rcases List.mem_append.mp hsm with hsm1 | hsm2
              · rcases List.mem_append.mp hsm1 with hold | ha
                · exact hsnaps s hold
                · have hseq : s = st.messages ++ [assistantEntry tc pr.2] := by
                    simpa using ha
                  subst hseq
                  exact toolPrecededOk_append_assistant st.messages _ hmsgs
              · have hseq : s = (st.messages ++ [assistantEntry tc pr.2])
                    ++ [toolEntry tc content] := by
                  simpa using hsm2
                subst hseq
                exact hm2
            · right
              exact List.getLast?_concat _

theorem contentAppend_snapInv (c : Option String) (st : PState) (h : SnapInv st) :
    SnapInv (contentAppend c st) := by
  obtain ⟨hchain, hsnaps, hmsgs, hlast⟩ := h
  unfold contentAppend
  split
  · split
    · exact ⟨hchain, hsnaps, hmsgs, hlast⟩
    · exact ⟨hchain, hsnaps, hmsgs, hlast⟩
  · exact ⟨hchain, hsnaps, hmsgs, hlast⟩

theorem loopModel_snapInv (toolO : ToolOracle) (keylist : List String)
    (tools : List FlatSpec) (deadline : Nat) :
    ∀ (script : List ScriptEntry) (msg : ModelMessage) (st : PState), SnapInv st →
      SnapInv (loopModel toolO keylist tools deadline script msg st).1 := by
  intro script
  induction script with
  | nil =>
    intro msg st h
    unfold loopModel
    split
    · exact h
    · split
      · rename_i st1 e hex
        have := execCalls_snapInv toolO keylist deadline msg.toolCalls st h
        rw [hex] at this
        exact this
      · rename_i st1 hex
        have := execCalls_snapInv toolO keylist deadline msg.toolCalls st h
        rw [hex] at this
        exact this
  | cons entry rest ih =>
    intro msg st h
    unfold loopModel
    split
    · exact h
    · split
      · rename_i st1 e hex
        have := execCalls_snapInv toolO keylist deadline msg.toolCalls st h
        rw [hex] at this
        exact this
      · rename_i st1 hex
        have h1 : SnapInv st1 := by
          have := execCalls_snapInv toolO keylist deadline msg.toolCalls st h
          rw [hex] at this
          exact this
        dsimp only
        split
        · exact ⟨h1.1, h1.2.1, h1.2.2.1, h1.2.2.2⟩
        · split
          · exact ⟨h1.1, h1.2.1, h1.2.2.1, h1.2.2.2⟩
          · apply ih
            apply contentAppend_snapInv
            exact ⟨h1.1, h1.2.1, h1.2.2.1, h1.2.2.2⟩

/-- C9: at every point of a request — the transcript's creation and each
append — every tool-role entry in the transcript is immediately preceded by
an assistant entry carrying the matching tool-call id, and the transcript
is append-only: the recorded snapshots form a prefix chain, so entries are
never reordered or removed once appended. -/
theorem c9_transcript_invariant (reg : RegState) (query : String) (deadline : Nat)
    (script : List ScriptEntry) (toolO : ToolOracle) :
    List.Chain' List.IsPrefix (process_query reg query deadline script toolO).1.snaps ∧
    ∀ s ∈ (process_query reg query deadline script toolO).1.snaps,
      toolPrecededOk s = true := by
  have key : SnapInv (process_query reg query deadline script toolO).1 := by
    unfold process_query
    split
    · exact ⟨List.chain'_nil, by intro s hs; simp [PState.empty] at hs, rfl, Or.inl rfl⟩
    · have base : SnapInv
          (⟨[Msg.user query], [[Msg.user query]], [], [], [], 0⟩ : PState) := by
        refine ⟨List.chain'_singleton _, ?_, rfl, Or.inr rfl⟩
        intro s hs
        simp only [List.mem_singleton] at hs
        subst hs
        rfl
      split
      · exact ⟨base.1, base.2.1, base.2.2.1, base.2.2.2⟩
      · dsimp only
        split
        · exact ⟨base.1, base.2.1, base.2.2.1, base.2.2.2⟩
        · split
          · exact ⟨base.1, base.2.1, base.2.2.1, base.2.2.2⟩
          · apply loopModel_snapInv
            exact ⟨base.1, base.2.1, base.2.2.1, base.2.2.2⟩
  exact ⟨key.1, key.2.1⟩

/-- Witness for `c9_transcript_invariant` on a one-call run. -/
theorem c9_transcript_invariant_witness :
    List.Chain' List.IsPrefix
      (process_query regA "q" 300 scriptOneCall toolOA).1.snaps ∧
    ∀ s ∈ (process_query regA "q" 300 scriptOneCall toolOA).1.snaps,
      toolPrecededOk s = true :=
  c9_transcript_invariant regA "q" 300 scriptOneCall toolOA

end MCPProxy
